import Mathlib

/-!
Shallow embedding of the core of LLJITWithObjectLinkingLayerPlugin.cpp:
the link-graph hex-dump renderer `MyPlugin::printLinkGraph` and the pass
configuration hook `MyPlugin::modifyPassConfig`, together with the data
model they operate on (LinkGraph / Section / Block).

Machine integers: `JITTargetAddress` is `uint64_t`; addresses are modelled
as `Nat` values below `U64 = 2 ^ 64`, with wrap-around written explicitly
as `% U64` wherever the C code can overflow.
-/

/-- Modulus of the 64-bit unsigned address type `JITTargetAddress`. -/
def U64 : Nat := 2 ^ 64

/-- The constant `LineWidth` from `printLinkGraph` (line 88 of the source). -/
def LineWidth : Nat := 16

/-- A JITLink block: base address, size, zero-fill flag, and (when not
zero-filled) its content bytes. The data-model invariant of the spec is
that for a non-zero-filled block `content` holds exactly `size` bytes. -/
structure Block where
  address : Nat
  size : Nat
  isZeroFill : Bool
  content : List Nat
  deriving DecidableEq

/-- A JITLink section: a name and its blocks, in native order. -/
structure Section where
  name : String
  blocks : List Block
  deriving DecidableEq

/-- A link graph: its sections, in native iteration order. -/
structure LinkGraph where
  sections : List Section
  deriving DecidableEq

/-- One atomic piece of output emitted by `printLinkGraph`. Cells record
the running address (and for byte cells the content index accessed) so
that theorems can speak about which address each cell belongs to; the
concrete text of a cell is given by `Cell.render` below. -/
inductive Cell where
  | title (t : String)
  | sectionName (n : String)
  | blockAddr (a : Nat)
  | header (a : Nat)
  | blank (a : Nat)
  | byte (a idx v : Nat)
  | newline
  deriving DecidableEq

/-- Source line 99: `InitAddr = B->getAddress() & ~(LineWidth - 1)`; the
complement is taken at 64 bits, i.e. xor with the all-ones word. -/
def InitAddr (B : Block) : Nat := B.address &&& ((U64 - 1) ^^^ (LineWidth - 1))

/-- Source line 100: `StartAddr = B->getAddress()`. -/
def StartAddr (B : Block) : Nat := B.address

/-- Source line 101: `EndAddr = B->getAddress() + B->getSize()` (uint64 add). -/
def EndAddr (B : Block) : Nat := (B.address + B.size) % U64

/-- The loop body of lines 104-114 at one value of `CurAddr`: a header cell
when the running address is a multiple of `LineWidth`, then a blank cell
(below the base) or a byte cell `Data[CurAddr - StartAddr]`, then a line
break when the running address is one below a multiple of `LineWidth`. -/
def cellsAt (B : Block) (CurAddr : Nat) : List Cell :=
  (if CurAddr % LineWidth = 0 then [Cell.header CurAddr] else []) ++
  (if CurAddr < StartAddr B then [Cell.blank CurAddr]
   else [Cell.byte CurAddr (CurAddr - StartAddr B) (B.content.getD (CurAddr - StartAddr B) 0)]) ++
  (if CurAddr % LineWidth = LineWidth - 1 then [Cell.newline] else [])

/-- The loop of lines 104-114, driven by an explicit iteration count:
`CurAddr` starts at `InitAddr` and steps by one modulo `2 ^ 64` until it
first equals `EndAddr`; `loopCount` below is exactly that number of
steps, so the two presentations coincide. -/
def dumpLoop (B : Block) : Nat → Nat → List Cell
  | _, 0 => []
  | CurAddr, fuel + 1 => cellsAt B CurAddr ++ dumpLoop B ((CurAddr + 1) % U64) fuel

/-- Number of iterations of the loop of lines 104-114: the modular distance
from `InitAddr` up to `EndAddr`. -/
def loopCount (B : Block) : Nat := (EndAddr B + U64 - InitAddr B) % U64

/-- All cells emitted by the hex-dump loop (lines 104-114) for one block. -/
def hexDumpCells (B : Block) : List Cell := dumpLoop B (InitAddr B) (loopCount B)

/-- Lines 115-116: a closing line break when the last byte did not land on
a line boundary. -/
def boundaryNewline (B : Block) : List Cell :=
  if EndAddr B % LineWidth ≠ 0 then [Cell.newline] else []

/-- Lines 94-118 for one block: the `block@...:` line, then (unless the
block is zero-filled, line 96-97) the hex dump, the conditional boundary
line break, and the unconditional blank line of line 117. -/
def blockCells (B : Block) : List Cell :=
  Cell.blockAddr B.address ::
    (if B.isZeroFill then [] else hexDumpCells B ++ boundaryNewline B ++ [Cell.newline])

/-- Lines 92-118 for one section: its name line, then its blocks in order. -/
def sectionCells (S : Section) : List Cell :=
  Cell.sectionName S.name :: S.blocks.flatMap blockCells

/-- Lines 90-119: the full cell stream of `printLinkGraph`. -/
def printLinkGraphCells (G : LinkGraph) (Title : String) : List Cell :=
  Cell.title Title :: G.sections.flatMap sectionCells

/-- Lower-case hexadecimal digit, as printed by `formatv`. -/
def hexDigitChar (n : Nat) : Char := if n < 10 then Char.ofNat (48 + n) else Char.ofNat (87 + n)

/-- The `w` least significant hex digits of `n`, most significant first. -/
def hexPad : Nat → Nat → List Char
  | _, 0 => []
  | n, w + 1 => hexPad (n / 16) w ++ [hexDigitChar (n % 16)]

/-- Text of `formatv` with format `x16` on a 64-bit address. -/
def hex16 (n : Nat) : String := "0x" ++ String.mk (hexPad n 16)

/-- Text of `formatv` with format `x-2` on a byte value. -/
def hex2 (n : Nat) : String := String.mk (hexPad n 2)

/-- The text each cell contributes to the diagnostic stream, copied from
the `dbgs()` statements of lines 90-117. -/
def Cell.render : Cell → String
  | .title t => "--- " ++ t ++ "---\n"
  | .sectionName n => "  section: " ++ n ++ "\n"
  | .blockAddr a => "    block@" ++ hex16 a ++ ":\n"
  | .header a => "    " ++ hex16 a ++ ": "
  | .blank _ => "   "
  | .byte _ _ v => hex2 v ++ " "
  | .newline => "\n"

/-- Concatenated text of a cell stream. -/
def renderCells : List Cell → String
  | [] => ""
  | c :: cs => c.render ++ renderCells cs

/-- The whole of `printLinkGraph`, in state-passing form: it receives the
graph and returns the (unchanged) graph together with the text written to
the diagnostic stream. -/
def printLinkGraph (G : LinkGraph) (Title : String) : LinkGraph × String :=
  (G, renderCells (printLinkGraphCells G Title))

/-- Text emitted for a single block (lines 94-118). -/
def blockString (B : Block) : String := renderCells (blockCells B)

/-- Address projection of a blank cell. -/
def Cell.blankAddr : Cell → Option Nat
  | .blank a => some a
  | _ => none

/-- Address projection of a byte cell. -/
def Cell.byteAddr : Cell → Option Nat
  | .byte a _ _ => some a
  | _ => none

/-- Content-index projection of a byte cell. -/
def Cell.byteIdx : Cell → Option Nat
  | .byte _ i _ => some i
  | _ => none

/-- Recognizer for address-header cells. -/
def Cell.isHeader : Cell → Bool
  | .header _ => true
  | _ => false

/-- Recognizer for byte cells. -/
def Cell.isByte : Cell → Bool
  | .byte _ _ _ => true
  | _ => false

/-- Running-address projection of a header, blank or byte cell. -/
def Cell.addrOf : Cell → Option Nat
  | .header a => some a
  | .blank a => some a
  | .byte a _ _ => some a
  | _ => none

/-- A JITLink pass as registered by this plugin: both lambdas of
`modifyPassConfig` (lines 56-63) call `printLinkGraph` on the graph with a
fixed title and return `Error::success()`. -/
inductive Pass where
  | printLinkGraphPass (title : String)
  deriving DecidableEq

/-- Running a registered pass on a graph: the cells it writes to the
diagnostic stream, and its result (`none` models `Error::success()`; the
lambdas of lines 56-63 never return an error). -/
def runPass : Pass → LinkGraph → List Cell × Option String
  | .printLinkGraphPass t, G => (printLinkGraphCells G t, none)

/-- The two pass lists of `jitlink::PassConfiguration` used by the source:
`PostPrunePasses` run before the linker applies fixups, `PostFixupPasses`
afterwards. -/
structure PassConfiguration where
  PostPrunePasses : List Pass
  PostFixupPasses : List Pass
  deriving DecidableEq

/-- Lines 54-64: `MyPlugin::modifyPassConfig` appends one pre-fixup pass
(first) and then one post-fixup pass to the configuration it is given; its
return type is `void`, so it has no failure path. -/
def MyPlugin.modifyPassConfig (Config : PassConfiguration) : PassConfiguration :=
  let afterFirst := { Config with
    PostPrunePasses := Config.PostPrunePasses ++ [Pass.printLinkGraphPass "Before fixup:"] }
  { afterFirst with
    PostFixupPasses := afterFirst.PostFixupPasses ++ [Pass.printLinkGraphPass "After fixup:"] }

/-- Modelled from the spec: the dispatcher `ObjectLinkingLayer` and its
plugin list are not part of this repository, only `MyPlugin` is. Per §4.1
a plugin's configuration hook lets it "append zero or more passes to
either list", so an abstract plugin is characterized by the two lists of
passes it appends. -/
structure Plugin where
  prePasses : List Pass
  postPasses : List Pass

/-- Modelled from the spec: the effect of one plugin's configuration hook,
which appends its passes to the two lists of the configuration. -/
def applyPluginConfig (P : Plugin) (Config : PassConfiguration) : PassConfiguration :=
  { PostPrunePasses := Config.PostPrunePasses ++ P.prePasses,
    PostFixupPasses := Config.PostFixupPasses ++ P.postPasses }

/-- Modelled from the spec: `configurePasses` invokes each registered
plugin's configuration hook in registration order; its type shows that it
has no failure path. -/
def configurePasses (plugins : List Plugin) (Config : PassConfiguration) : PassConfiguration :=
  plugins.foldl (fun C P => applyPluginConfig P C) Config

/-- The abstract plugin corresponding to `MyPlugin` (lines 54-64): one
pre-fixup pass, then one post-fixup pass. -/
def myPlugin : Plugin :=
  { prePasses := [Pass.printLinkGraphPass "Before fixup:"],
    postPasses := [Pass.printLinkGraphPass "After fixup:"] }

/-- The 64-bit complement of `LineWidth - 1` is the even multiple-of-16 mask. -/
theorem mask_val : (U64 - 1) ^^^ (LineWidth - 1) = U64 - 16 := by decide

/-- Bitwise AND with the mask `2 ^ 64 - 16` rounds a 64-bit value down to a
multiple of 16: the bit-level computation of line 99 agrees with arithmetic
rounding. -/
theorem land_mask (a : Nat) (h : a < U64) : a &&& (U64 - 16) = 16 * (a / 16) := by
  have h1 : U64 - 16 = (2 ^ 60 - 1) <<< 4 := by decide
  have h2 : 16 * (a / 16) = (a >>> 4) <<< 4 := by
    rw [Nat.shiftRight_eq_div_pow, Nat.shiftLeft_eq]
    norm_num [Nat.mul_comm]
  rw [h1, h2]
  apply Nat.eq_of_testBit_eq
  intro i
  rw [Nat.testBit_land, Nat.testBit_shiftLeft, Nat.testBit_shiftLeft, Nat.testBit_shiftRight,
    Nat.testBit_two_pow_sub_one]
  by_cases h4 : 4 ≤ i
  · by_cases h64 : i < 64
    · have e1 : i - 4 < 60 := by omega
      have e2 : 4 + (i - 4) = i := by omega
      simp [ge_iff_le, h4, e1, e2]
    · have hbig : a.testBit i = false := by
        refine Nat.testBit_eq_false_of_lt (lt_of_lt_of_le h ?_)
        exact Nat.pow_le_pow_right (by norm_num) (by omega)
      have e1 : ¬ (i - 4 < 60) := by omega
      have e2 : 4 + (i - 4) = i := by omega
      simp [ge_iff_le, h4, e1, e2, hbig]
  · simp [ge_iff_le, h4]

/-- The starting address of the dump is the base rounded down to a multiple
of 16. -/
theorem InitAddr_eq (B : Block) (h : B.address < U64) :
    InitAddr B = 16 * (B.address / 16) := by
  rw [InitAddr, mask_val, land_mask _ h]

/-- Subtraction form of `InitAddr_eq`. -/
theorem InitAddr_eq_sub (B : Block) (h : B.address < U64) :
    InitAddr B = B.address - B.address % 16 := by
  rw [InitAddr_eq B h]
  have := Nat.div_add_mod B.address 16
  omega

/-- Without 64-bit overflow, `EndAddr` is plainly `base + size`. -/
theorem EndAddr_eq (B : Block) (h : B.address + B.size < U64) :
    EndAddr B = B.address + B.size := by
  rw [EndAddr, Nat.mod_eq_of_lt h]

/-- Without 64-bit overflow, the loop of lines 104-114 runs once per address
from the rounded-down start up to `base + size`. -/
theorem loopCount_eq (B : Block) (h : B.address + B.size < U64) :
    loopCount B = B.address % 16 + B.size := by
  have ha : B.address < U64 := by omega
  have hr : B.address % 16 ≤ B.address := Nat.mod_le _ _
  rw [loopCount, EndAddr_eq B h, InitAddr_eq_sub B ha]
  have e1 : B.address + B.size + U64 - (B.address - B.address % 16) =
      U64 + (B.address % 16 + B.size) := by omega
  rw [e1, Nat.add_mod_left, Nat.mod_eq_of_lt (by omega)]

/-- As long as the running address cannot wrap, the loop visits the
addresses `CurAddr, CurAddr + 1, ...` in order. -/
theorem dumpLoop_no_wrap (B : Block) (a n : Nat) (h : a + n ≤ U64) :
    dumpLoop B a n = (List.range' a n).flatMap (cellsAt B) := by
  induction n generalizing a with
  | zero => simp [dumpLoop]
  | succ n ih =>
    rw [List.range'_succ, List.flatMap_cons, dumpLoop]
    congr 1
    rcases Nat.lt_or_ge (a + 1) U64 with hlt | hge
    · rw [Nat.mod_eq_of_lt hlt, ih _ (by omega)]
    · have hn : n = 0 := by omega
      subst hn
      simp [dumpLoop]

/-- The hex dump of a block whose extent does not overflow is the loop body
evaluated at each address from `InitAddr` for `base % 16 + size` steps. -/
theorem hexDumpCells_eq (B : Block) (h : B.address + B.size < U64) :
    hexDumpCells B =
      (List.range' (InitAddr B) (B.address % 16 + B.size)).flatMap (cellsAt B) := by
  have ha : B.address < U64 := by omega
  have hr : B.address % 16 ≤ B.address := Nat.mod_le _ _
  rw [hexDumpCells, loopCount_eq B h]
  apply dumpLoop_no_wrap
  rw [InitAddr_eq_sub B ha]
  omega

/-- The visited addresses split into the padding range below the base and
the content range `[base, base + size)`. -/
theorem range_split (B : Block) (h : B.address + B.size < U64) :
    List.range' (InitAddr B) (B.address % 16 + B.size) =
      List.range' (InitAddr B) (B.address % 16) ++ List.range' B.address B.size := by
  have ha : B.address < U64 := by omega
  have hr : B.address % 16 ≤ B.address := Nat.mod_le _ _
  have e1 : InitAddr B + 1 * (B.address % 16) = B.address := by
    rw [InitAddr_eq_sub B ha]; omega
  have e2 := List.range'_append (InitAddr B) (B.address % 16) B.size 1
  rw [e1] at e2
  rw [Nat.add_comm (B.address % 16) B.size]
  exact e2.symm

/-- A flattened map that is a singleton at every list element is a map. -/
theorem flatMap_eq_map {α β : Type} (l : List α) (f : α → List β) (g : α → β)
    (h : ∀ a ∈ l, f a = [g a]) : l.flatMap f = l.map g := by
  induction l with
  | nil => rfl
  | cons x xs ih =>
    rw [List.flatMap_cons, List.map_cons, h x (by simp), ih (fun a ha => h a (by simp [ha]))]
    rfl

/-- Pushing a `filterMap` projection inside a `flatMap`. -/
theorem filterMap_flatMap {α β γ : Type} (l : List α) (f : α → List β) (g : β → Option γ) :
    (l.flatMap f).filterMap g = l.flatMap (fun a => (f a).filterMap g) := by
  induction l with
  | nil => rfl
  | cons x xs ih => rw [List.flatMap_cons, List.flatMap_cons, List.filterMap_append, ih]

/-- Below the base address the loop body contributes exactly one blank cell
carrying the running address. -/
theorem cellsAt_blankAddr_low (B : Block) (a : Nat) (h : a < B.address) :
    (cellsAt B a).filterMap Cell.blankAddr = [a] := by
  have h' : a < StartAddr B := h
  simp only [cellsAt, List.filterMap_append, if_pos h']
  split <;> split <;> rfl

/-- At or above the base address the loop body contributes no blank cell. -/
theorem cellsAt_blankAddr_high (B : Block) (a : Nat) (h : B.address ≤ a) :
    (cellsAt B a).filterMap Cell.blankAddr = [] := by
  have h' : ¬ a < StartAddr B := by exact Nat.not_lt.mpr h
  simp only [cellsAt, List.filterMap_append, if_neg h']
  split <;> split <;> rfl

/-- Below the base address the loop body contributes no byte cell. -/
theorem cellsAt_byteAddr_low (B : Block) (a : Nat) (h : a < B.address) :
    (cellsAt B a).filterMap Cell.byteAddr = [] := by
  have h' : a < StartAddr B := h
  simp only [cellsAt, List.filterMap_append, if_pos h']
  split <;> split <;> rfl

/-- At or above the base address the loop body contributes exactly one byte
cell carrying the running address. -/
theorem cellsAt_byteAddr_high (B : Block) (a : Nat) (h : B.address ≤ a) :
    (cellsAt B a).filterMap Cell.byteAddr = [a] := by
  have h' : ¬ a < StartAddr B := by exact Nat.not_lt.mpr h
  simp only [cellsAt, List.filterMap_append, if_neg h']
  split <;> split <;> rfl

/-- The loop body emits one header cell when the running address is a
multiple of the line width and none otherwise. -/
theorem cellsAt_countP_isHeader (B : Block) (a : Nat) :
    (cellsAt B a).countP Cell.isHeader = if a % LineWidth = 0 then 1 else 0 := by
  simp only [cellsAt, List.countP_append]
  split <;> split <;> split <;> rfl

/-- The loop body emits one line break when the running address is one
below a multiple of the line width and none otherwise. -/
theorem cellsAt_count_newline (B : Block) (a : Nat) :
    List.count Cell.newline (cellsAt B a) = if a % LineWidth = LineWidth - 1 then 1 else 0 := by
  simp only [cellsAt, List.count_append]
  split <;> split <;> split <;> rfl

/-- Byte cells and the byte-address projection pick out the same cells. -/
theorem filter_isByte_length (l : List Cell) :
    (l.filter Cell.isByte).length = (l.filterMap Cell.byteAddr).length := by
  induction l with
  | nil => rfl
  | cons c cs ih =>
    cases c <;> simp [List.filter_cons, List.filterMap_cons, Cell.isByte, Cell.byteAddr, ih]

/-- Dispatching configuration over the registered plugins appends each
plugin's contributions, in registration order, to the matching list. -/
theorem configurePasses_spec (plugins : List Plugin) (Config : PassConfiguration) :
    configurePasses plugins Config =
      { PostPrunePasses := Config.PostPrunePasses ++ (plugins.map Plugin.prePasses).flatten,
        PostFixupPasses := Config.PostFixupPasses ++ (plugins.map Plugin.postPasses).flatten } := by
  induction plugins generalizing Config with
  | nil => simp [configurePasses]
  | cons p ps ih =>
    simp [configurePasses, applyPluginConfig, List.foldl_cons] at ih ⊢
    rw [ih]
    simp [List.append_assoc]

/-- Rendering distributes over concatenation of cell streams. -/
theorem renderCells_append (l₁ l₂ : List Cell) :
    renderCells (l₁ ++ l₂) = renderCells l₁ ++ renderCells l₂ := by
  induction l₁ with
  | nil => simp [renderCells]
  | cons c cs ih => simp [renderCells, ih, String.append_assoc]

/-- At an address one below a line boundary the loop body ends in a line
break. -/
theorem cellsAt_ends_newline (B : Block) (a : Nat) (h : a % LineWidth = LineWidth - 1) :
    ∃ l, cellsAt B a = l ++ [Cell.newline] := by
  refine ⟨(if a % LineWidth = 0 then [Cell.header a] else []) ++
    (if a < StartAddr B then [Cell.blank a]
     else [Cell.byte a (a - StartAddr B) (B.content.getD (a - StartAddr B) 0)]), ?_⟩
  rw [cellsAt, if_pos h, List.append_assoc]

/-- At a line-boundary address below the base the loop body is a header
followed by a blank cell. -/
theorem cellsAt_header_blank (B : Block) (a : Nat) (h0 : a % LineWidth = 0)
    (hlt : a < B.address) : cellsAt B a = [Cell.header a, Cell.blank a] := by
  have h15 : ¬ a % LineWidth = LineWidth - 1 := by rw [h0]; decide
  have hlt' : a < StartAddr B := hlt
  rw [cellsAt, if_pos h0, if_pos hlt', if_neg h15]
  rfl

/-- At an interior address below the base the loop body is a single blank
cell. -/
theorem cellsAt_blank_only (B : Block) (a : Nat) (h0 : ¬ a % LineWidth = 0)
    (h15 : ¬ a % LineWidth = LineWidth - 1) (hlt : a < B.address) :
    cellsAt B a = [Cell.blank a] := by
  have hlt' : a < StartAddr B := hlt
  rw [cellsAt, if_neg h0, if_pos hlt', if_neg h15]
  rfl

/-- A byte cell emitted by the loop body carries the running address and
the offset of that address from the base. -/
theorem byte_mem_cellsAt (B : Block) (x a i v : Nat) (h : Cell.byte a i v ∈ cellsAt B x) :
    StartAddr B ≤ x ∧ a = x ∧ i = x - StartAddr B := by
  rw [cellsAt] at h
  simp only [List.mem_append] at h
  rcases h with (h | h) | h
  · split at h <;> simp_all
  · split at h
    · simp_all
    · rename_i hge
      simp only [List.mem_singleton, Cell.byte.injEq] at h
      exact ⟨Nat.not_lt.mp hge, h.1, h.2.1⟩
  · split at h <;> simp_all

/-- C3: for every non-zero-filled block the hex dump's starting address is
the block's base address rounded down to the nearest multiple of the line
width (computed on line 99 as base AND NOT(LineWidth - 1)), the ending
boundary is base + size, and the line width is the constant 16. -/
theorem C3_dump_bounds (B : Block) (hov : B.address + B.size < U64) :
    InitAddr B = LineWidth * (B.address / LineWidth) ∧
    InitAddr B = B.address - B.address % LineWidth ∧
    EndAddr B = B.address + B.size ∧
    LineWidth = 16 := by
  have ha : B.address < U64 := by omega
  exact ⟨InitAddr_eq B ha, InitAddr_eq_sub B ha, EndAddr_eq B hov, rfl⟩

/-- Witness for C3 at the literal block of the spec (base 0x1003, size 5). -/
theorem C3_dump_bounds_witness :
    (0x1003 : Nat) + 5 < U64 ∧
    (InitAddr ⟨0x1003, 5, false, []⟩ = LineWidth * (0x1003 / LineWidth) ∧
     InitAddr ⟨0x1003, 5, false, []⟩ = 0x1003 - 0x1003 % LineWidth ∧
     EndAddr ⟨0x1003, 5, false, []⟩ = 0x1003 + 5 ∧
     LineWidth = 16) :=
  ⟨by decide, C3_dump_bounds ⟨0x1003, 5, false, []⟩ (by decide)⟩

/-- C4: a zero-filled block, of any size, renders as its address line only:
no hex byte cells and no header lines are emitted for it. -/
theorem C4_zero_fill_address_only (B : Block) (hz : B.isZeroFill = true) :
    blockCells B = [Cell.blockAddr B.address] ∧
    (blockCells B).countP Cell.isByte = 0 ∧
    (blockCells B).countP Cell.isHeader = 0 := by
  have h1 : blockCells B = [Cell.blockAddr B.address] := by
    simp [blockCells, hz]
  rw [h1]
  exact ⟨rfl, rfl, rfl⟩

/-- Witness for C4 at a zero-filled block of size 7. -/
theorem C4_zero_fill_address_only_witness :
    (⟨0x2000, 7, true, []⟩ : Block).isZeroFill = true ∧
    (blockCells ⟨0x2000, 7, true, []⟩ = [Cell.blockAddr 0x2000] ∧
     (blockCells ⟨0x2000, 7, true, []⟩).countP Cell.isByte = 0 ∧
     (blockCells ⟨0x2000, 7, true, []⟩).countP Cell.isHeader = 0) :=
  ⟨rfl, C4_zero_fill_address_only ⟨0x2000, 7, true, []⟩ rfl⟩

/-- C6: printLinkGraph returns the graph it was given unchanged, and a
second call on that returned snapshot with the same title produces
byte-identical output. -/
theorem C6_pure_and_idempotent (G : LinkGraph) (Title : String) :
    (printLinkGraph G Title).1 = G ∧
    (printLinkGraph (printLinkGraph G Title).1 Title).2 = (printLinkGraph G Title).2 :=
  ⟨rfl, rfl⟩

/-- C7: configurePasses dispatches each plugin's configuration hook in
registration order; every hook only appends to the two pass lists, so the
passes already contributed are preserved, in order, ahead of later ones;
the reference plugin appends exactly one pass to each list, the pre-fixup
pass first; and the hook returns a configuration, never an error. -/
theorem C7_configure_passes (plugins : List Plugin) (Config : PassConfiguration) :
    (configurePasses plugins Config).PostPrunePasses =
        Config.PostPrunePasses ++ (plugins.map Plugin.prePasses).flatten ∧
    (configurePasses plugins Config).PostFixupPasses =
        Config.PostFixupPasses ++ (plugins.map Plugin.postPasses).flatten ∧
    applyPluginConfig myPlugin Config = MyPlugin.modifyPassConfig Config ∧
    MyPlugin.modifyPassConfig Config =
      { PostPrunePasses := Config.PostPrunePasses ++ [Pass.printLinkGraphPass "Before fixup:"],
        PostFixupPasses := Config.PostFixupPasses ++ [Pass.printLinkGraphPass "After fixup:"] } := by
  refine ⟨?_, ?_, rfl, rfl⟩ <;> rw [configurePasses_spec]

/-- A flattened map that is empty at every list element is empty. -/
theorem flatMap_eq_nil {α β : Type} (l : List α) (f : α → List β)
    (h : ∀ a ∈ l, f a = []) : l.flatMap f = [] := by
  induction l with
  | nil => rfl
  | cons x xs ih =>
    rw [List.flatMap_cons, h x (by simp), ih (fun a ha => h a (by simp [ha]))]
    rfl

/-- C1: for a non-zero-filled block, render emits blank placeholder cells
for exactly the addresses from the rounded-down start up to the base, and
exactly one byte cell per address in [base, base + size), so the number of
byte cells equals the block's declared size. -/
theorem C1_padding_and_byte_cells (B : Block) (hz : B.isZeroFill = false)
    (hov : B.address + B.size < U64) :
    (blockCells B).filterMap Cell.blankAddr =
        List.range' (InitAddr B) (B.address % LineWidth) ∧
    (blockCells B).filterMap Cell.byteAddr = List.range' B.address B.size ∧
    ((blockCells B).filter Cell.isByte).length = B.size := by
  have ha : B.address < U64 := by omega
  have hr : B.address % 16 ≤ B.address := Nat.mod_le _ _
  have hinit : InitAddr B + B.address % 16 = B.address := by
    rw [InitAddr_eq_sub B ha]; omega
  have hmem_low : ∀ a ∈ List.range' (InitAddr B) (B.address % 16), a < B.address := by
    intro a haa
    rw [List.mem_range'_1] at haa
    omega
  have hmem_high : ∀ a ∈ List.range' B.address B.size, B.address ≤ a := by
    intro a haa
    rw [List.mem_range'_1] at haa
    exact haa.1
  have hrep : blockCells B = Cell.blockAddr B.address ::
      (hexDumpCells B ++ boundaryNewline B ++ [Cell.newline]) := by
    simp [blockCells, hz]
  have hsplit : hexDumpCells B =
      (List.range' (InitAddr B) (B.address % 16)).flatMap (cellsAt B) ++
      (List.range' B.address B.size).flatMap (cellsAt B) := by
    rw [hexDumpCells_eq B hov, range_split B hov, List.flatMap_append]
  have hb : boundaryNewline B = [] ∨ boundaryNewline B = [Cell.newline] := by
    rw [boundaryNewline]; split <;> simp
  have hblank : (blockCells B).filterMap Cell.blankAddr =
      List.range' (InitAddr B) (B.address % 16) := by
    rw [hrep]
    rcases hb with h | h <;>
      simp only [h, List.filterMap_cons, List.filterMap_append, hsplit, filterMap_flatMap,
        Cell.blankAddr] <;>
      rw [flatMap_eq_map _ _ (fun a => a) (fun a haa => cellsAt_blankAddr_low B a (hmem_low a haa)),
        flatMap_eq_nil _ _ (fun a haa => cellsAt_blankAddr_high B a (hmem_high a haa))] <;>
      simp
  have hbyte : (blockCells B).filterMap Cell.byteAddr = List.range' B.address B.size := by
    rw [hrep]
    rcases hb with h | h <;>
      simp only [h, List.filterMap_cons, List.filterMap_append, hsplit, filterMap_flatMap,
        Cell.byteAddr] <;>
      rw [flatMap_eq_nil _ _ (fun a haa => cellsAt_byteAddr_low B a (hmem_low a haa)),
        flatMap_eq_map _ _ (fun a => a) (fun a haa => cellsAt_byteAddr_high B a (hmem_high a haa))] <;>
      simp
  refine ⟨?_, hbyte, ?_⟩
  · rw [hblank]; rfl
  · rw [filter_isByte_length, hbyte, List.length_range']

/-- Witness for C1 at the block with base 0x1003 and the five content
bytes 1..5. -/
theorem C1_padding_and_byte_cells_witness :
    (⟨0x1003, 5, false, [1, 2, 3, 4, 5]⟩ : Block).isZeroFill = false ∧
    (0x1003 : Nat) + 5 < U64 ∧
    ((blockCells ⟨0x1003, 5, false, [1, 2, 3, 4, 5]⟩).filterMap Cell.blankAddr =
        List.range' (InitAddr ⟨0x1003, 5, false, [1, 2, 3, 4, 5]⟩) (0x1003 % LineWidth) ∧
     (blockCells ⟨0x1003, 5, false, [1, 2, 3, 4, 5]⟩).filterMap Cell.byteAddr =
        List.range' 0x1003 5 ∧
     ((blockCells ⟨0x1003, 5, false, [1, 2, 3, 4, 5]⟩).filter Cell.isByte).length = 5) :=
  ⟨rfl, by decide, C1_padding_and_byte_cells ⟨0x1003, 5, false, [1, 2, 3, 4, 5]⟩ rfl (by decide)⟩

/-- C2: a header cell is emitted exactly at the visited addresses that are
multiples of the line width and a line break exactly at the visited
addresses one below a multiple, and one additional closing line break is
emitted if and only if base + size is not a multiple of the line width. -/
theorem C2_headers_and_line_breaks (B : Block) (hz : B.isZeroFill = false)
    (hov : B.address + B.size < U64) :
    blockCells B = Cell.blockAddr B.address ::
        ((List.range' (InitAddr B) (B.address % LineWidth + B.size)).flatMap (cellsAt B) ++
          boundaryNewline B ++ [Cell.newline]) ∧
    (∀ a, (cellsAt B a).countP Cell.isHeader = if a % LineWidth = 0 then 1 else 0) ∧
    (∀ a, List.count Cell.newline (cellsAt B a) =
        if a % LineWidth = LineWidth - 1 then 1 else 0) ∧
    boundaryNewline B =
      (if (B.address + B.size) % LineWidth = 0 then [] else [Cell.newline]) := by
  refine ⟨?_, cellsAt_countP_isHeader B, cellsAt_count_newline B, ?_⟩
  · simp [blockCells, hz, hexDumpCells_eq B hov, LineWidth]
  · rw [boundaryNewline, EndAddr_eq B hov]
    by_cases h : (B.address + B.size) % LineWidth = 0 <;> simp [h]

/-- Witness for C2 at the block with base 0x1003 and five content bytes. -/
theorem C2_headers_and_line_breaks_witness :
    (⟨0x1003, 5, false, [1, 2, 3, 4, 5]⟩ : Block).isZeroFill = false ∧
    (0x1003 : Nat) + 5 < U64 ∧
    (blockCells ⟨0x1003, 5, false, [1, 2, 3, 4, 5]⟩ = Cell.blockAddr 0x1003 ::
        ((List.range' (InitAddr ⟨0x1003, 5, false, [1, 2, 3, 4, 5]⟩) (0x1003 % LineWidth + 5)).flatMap
            (cellsAt ⟨0x1003, 5, false, [1, 2, 3, 4, 5]⟩) ++
          boundaryNewline ⟨0x1003, 5, false, [1, 2, 3, 4, 5]⟩ ++ [Cell.newline]) ∧
     (∀ a, (cellsAt ⟨0x1003, 5, false, [1, 2, 3, 4, 5]⟩ a).countP Cell.isHeader =
        if a % LineWidth = 0 then 1 else 0) ∧
     (∀ a, List.count Cell.newline (cellsAt ⟨0x1003, 5, false, [1, 2, 3, 4, 5]⟩ a) =
        if a % LineWidth = LineWidth - 1 then 1 else 0) ∧
     boundaryNewline ⟨0x1003, 5, false, [1, 2, 3, 4, 5]⟩ =
       (if (0x1003 + 5) % LineWidth = 0 then [] else [Cell.newline])) :=
  ⟨rfl, by decide, C2_headers_and_line_breaks ⟨0x1003, 5, false, [1, 2, 3, 4, 5]⟩ rfl (by decide)⟩

/-- C5: at the literal case of the spec (base 0x1003, size 5, line width
16) the dump starts at address 0x1000, emits exactly three blank cells and
then the five content bytes in order, emits no cell at or past address
0x1008, and emits exactly one address-header line. -/
theorem C5_literal_case (c0 c1 c2 c3 c4 : Nat) :
    InitAddr ⟨0x1003, 5, false, [c0, c1, c2, c3, c4]⟩ = 0x1000 ∧
    hexDumpCells ⟨0x1003, 5, false, [c0, c1, c2, c3, c4]⟩ =
      [Cell.header 0x1000, Cell.blank 0x1000, Cell.blank 0x1001, Cell.blank 0x1002,
       Cell.byte 0x1003 0 c0, Cell.byte 0x1004 1 c1, Cell.byte 0x1005 2 c2,
       Cell.byte 0x1006 3 c3, Cell.byte 0x1007 4 c4] ∧
    (∀ a ∈ (hexDumpCells ⟨0x1003, 5, false, [c0, c1, c2, c3, c4]⟩).filterMap Cell.addrOf,
      a < 0x1008) ∧
    (blockCells ⟨0x1003, 5, false, [c0, c1, c2, c3, c4]⟩).countP Cell.isHeader = 1 := by
  have hi : InitAddr ⟨0x1003, 5, false, [c0, c1, c2, c3, c4]⟩ = 0x1000 :=
    (by decide : (0x1003 : Nat) &&& ((U64 - 1) ^^^ (LineWidth - 1)) = 0x1000)
  have hc : loopCount ⟨0x1003, 5, false, [c0, c1, c2, c3, c4]⟩ = 8 :=
    (by decide :
      ((0x1003 + 5) % U64 + U64 - (0x1003 &&& ((U64 - 1) ^^^ (LineWidth - 1)))) % U64 = 8)
  have h2 : hexDumpCells ⟨0x1003, 5, false, [c0, c1, c2, c3, c4]⟩ =
      [Cell.header 0x1000, Cell.blank 0x1000, Cell.blank 0x1001, Cell.blank 0x1002,
       Cell.byte 0x1003 0 c0, Cell.byte 0x1004 1 c1, Cell.byte 0x1005 2 c2,
       Cell.byte 0x1006 3 c3, Cell.byte 0x1007 4 c4] := by
    rw [hexDumpCells, hc, hi]
    simp [dumpLoop, cellsAt, StartAddr, U64, LineWidth, List.getD]
  have hb : boundaryNewline ⟨0x1003, 5, false, [c0, c1, c2, c3, c4]⟩ = [Cell.newline] :=
    (by decide :
      (if ((0x1003 + 5) % U64) % LineWidth ≠ 0 then [Cell.newline] else ([] : List Cell)) =
        [Cell.newline])
  have hrepc : blockCells ⟨0x1003, 5, false, [c0, c1, c2, c3, c4]⟩ =
      Cell.blockAddr 0x1003 ::
        (hexDumpCells ⟨0x1003, 5, false, [c0, c1, c2, c3, c4]⟩ ++
          boundaryNewline ⟨0x1003, 5, false, [c0, c1, c2, c3, c4]⟩ ++ [Cell.newline]) := rfl
  refine ⟨hi, h2, ?_, ?_⟩
  · rw [h2]
    simp [Cell.addrOf]
  · rw [hrepc, h2, hb]
    simp [List.countP_cons, List.countP_append, List.countP_nil, Cell.isHeader]

/-- C8: under the data-model invariant that a non-zero-filled block's
content buffer holds exactly `size` bytes and its extent does not overflow
the 64-bit address space, every content index accessed by the renderer is
within the buffer's bounds. -/
theorem C8_accesses_in_bounds (B : Block) (hz : B.isZeroFill = false)
    (hlen : B.content.length = B.size) (hov : B.address + B.size < U64) :
    ∀ a i v, Cell.byte a i v ∈ blockCells B → i < B.content.length := by
  intro a i v hmem
  have hrep : blockCells B = Cell.blockAddr B.address ::
      (hexDumpCells B ++ boundaryNewline B ++ [Cell.newline]) := by
    simp [blockCells, hz]
  rw [hrep] at hmem
  simp only [List.mem_cons, List.mem_append] at hmem
  rcases hmem with h | ((h | h) | h)
  · exact absurd h (by simp)
  · rw [hexDumpCells_eq B hov, List.mem_flatMap] at h
    obtain ⟨x, hx, hcell⟩ := h
    obtain ⟨hge, hax, hidx⟩ := byte_mem_cellsAt B x a i v hcell
    rw [List.mem_range'_1] at hx
    have hS : StartAddr B = B.address := rfl
    rw [hS] at hge hidx
    have hinit : InitAddr B + (B.address % 16 + B.size) = B.address + B.size := by
      have ha : B.address < U64 := by omega
      have hr : B.address % 16 ≤ B.address := Nat.mod_le _ _
      rw [InitAddr_eq_sub B ha]; omega
    rw [hlen]
    omega
  · rw [boundaryNewline] at h
    split at h <;> simp_all
  · simp at h

/-- Witness for C8 at the block with base 0x1003 and five content bytes. -/
theorem C8_accesses_in_bounds_witness :
    (⟨0x1003, 5, false, [9, 8, 7, 6, 5]⟩ : Block).isZeroFill = false ∧
    (⟨0x1003, 5, false, [9, 8, 7, 6, 5]⟩ : Block).content.length =
      (⟨0x1003, 5, false, [9, 8, 7, 6, 5]⟩ : Block).size ∧
    (0x1003 : Nat) + 5 < U64 ∧
    (∀ a i v, Cell.byte a i v ∈ blockCells ⟨0x1003, 5, false, [9, 8, 7, 6, 5]⟩ →
      i < (⟨0x1003, 5, false, [9, 8, 7, 6, 5]⟩ : Block).content.length) :=
  ⟨rfl, rfl, by decide, C8_accesses_in_bounds ⟨0x1003, 5, false, [9, 8, 7, 6, 5]⟩ rfl rfl (by decide)⟩

/-- C9: after rendering a non-zero-filled block's hex dump the renderer
unconditionally emits one extra line break (line 117) in addition to any
boundary line break, so the block's text always ends with an empty line,
separating it from whatever is printed next. -/
theorem C9_trailing_blank_line (B : Block) (hz : B.isZeroFill = false)
    (hov : B.address + B.size < U64) :
    (∃ cs, blockCells B = cs ++ [Cell.newline]) ∧
    (∃ s, blockString B = s ++ "\n\n") := by
  have ha : B.address < U64 := by omega
  have hr : B.address % 16 ≤ B.address := Nat.mod_le _ _
  have hi := InitAddr_eq_sub B ha
  have hrepb : blockCells B = Cell.blockAddr B.address ::
      ((hexDumpCells B ++ boundaryNewline B) ++ [Cell.newline]) := by
    simp [blockCells, hz]
  constructor
  · exact ⟨Cell.blockAddr B.address :: (hexDumpCells B ++ boundaryNewline B), by
      rw [hrepb]; rfl⟩
  · have hmain : (∃ ds, hexDumpCells B ++ boundaryNewline B = ds ++ [Cell.newline]) ∨
        hexDumpCells B ++ boundaryNewline B = [] := by
      by_cases hbz : EndAddr B % LineWidth = 0
      · have hbnd : boundaryNewline B = [] := by simp [boundaryNewline, hbz]
        rcases Nat.eq_zero_or_pos (B.address % 16 + B.size) with hcount | hcount
        · right
          rw [hexDumpCells_eq B hov, hbnd, hcount]
          simp
        · left
          obtain ⟨k, hk⟩ : ∃ k, B.address % 16 + B.size = k + 1 :=
            ⟨_, (Nat.succ_pred_eq_of_pos hcount).symm⟩
          have hbz' : (B.address + B.size) % 16 = 0 := by
            have he := EndAddr_eq B hov
            rw [he] at hbz
            exact hbz
          have hlast : (InitAddr B + k) % LineWidth = LineWidth - 1 :=
            (by omega : (InitAddr B + k) % 16 = 15)
          obtain ⟨l, hl⟩ := cellsAt_ends_newline B (InitAddr B + k) hlast
          refine ⟨(List.range' (InitAddr B) k).flatMap (cellsAt B) ++ l, ?_⟩
          rw [hexDumpCells_eq B hov, hbnd, hk, List.range'_concat, List.flatMap_append]
          simp [hl, List.append_assoc]
      · left
        have hbnd : boundaryNewline B = [Cell.newline] := by simp [boundaryNewline, hbz]
        exact ⟨hexDumpCells B, by rw [hbnd]⟩
    have e0 : ("\n" ++ "" : String) = "\n" := rfl
    have e1 : ("\n" ++ "\n" : String) = "\n\n" := rfl
    have e2 : ((":\n" ++ "\n") : String) = ":" ++ "\n\n" := rfl
    rcases hmain with ⟨ds, hds⟩ | hnil
    · refine ⟨(Cell.blockAddr B.address).render ++ renderCells ds, ?_⟩
      rw [blockString, hrepb, hds]
      simp only [renderCells, renderCells_append, Cell.render, String.append_assoc, e0, e1]
    · refine ⟨"    block@" ++ hex16 B.address ++ ":", ?_⟩
      rw [blockString, hrepb, hnil]
      simp only [List.nil_append, renderCells, Cell.render, String.append_assoc, e0, e2]

/-- Witness for C9 at a 3-byte block based at 0x20. -/
theorem C9_trailing_blank_line_witness :
    (⟨0x20, 3, false, [1, 2, 3]⟩ : Block).isZeroFill = false ∧
    (0x20 : Nat) + 3 < U64 ∧
    ((∃ cs, blockCells ⟨0x20, 3, false, [1, 2, 3]⟩ = cs ++ [Cell.newline]) ∧
     (∃ s, blockString ⟨0x20, 3, false, [1, 2, 3]⟩ = s ++ "\n\n")) :=
  ⟨rfl, by decide, C9_trailing_blank_line ⟨0x20, 3, false, [1, 2, 3]⟩ rfl (by decide)⟩

/-- C10: a non-zero-filled block of size zero whose base is not a multiple
of 16 still renders one header line, one blank cell per address from the
rounded-down start up to the base, and a closing line break before the
unconditional blank line; when such a block's base is a multiple of 16
only the block-address line and the unconditional blank line appear. -/
theorem C10_zero_size_block (B : Block) (hz : B.isZeroFill = false) (h0 : B.size = 0)
    (ha : B.address < U64) :
    (B.address % LineWidth ≠ 0 →
      blockCells B = [Cell.blockAddr B.address, Cell.header (InitAddr B)] ++
        (List.range' (InitAddr B) (B.address % LineWidth)).map Cell.blank ++
        [Cell.newline, Cell.newline]) ∧
    (B.address % LineWidth = 0 →
      blockCells B = [Cell.blockAddr B.address, Cell.newline]) := by
  simp only [LineWidth]
  have hov : B.address + B.size < U64 := by omega
  have hr : B.address % 16 ≤ B.address := Nat.mod_le _ _
  have hi := InitAddr_eq_sub B ha
  have hrepb : blockCells B = Cell.blockAddr B.address ::
      ((hexDumpCells B ++ boundaryNewline B) ++ [Cell.newline]) := by
    simp [blockCells, hz]
  constructor
  · intro hne
    have hcond : (B.address + B.size) % LineWidth ≠ 0 :=
      (by omega : ¬ (B.address + B.size) % 16 = 0)
    have hbnd : boundaryNewline B = [Cell.newline] := by
      rw [boundaryNewline, EndAddr_eq B hov, if_pos hcond]
    have hpos : 0 < B.address % 16 := Nat.pos_of_ne_zero hne
    obtain ⟨k, hk⟩ : ∃ k, B.address % 16 = k + 1 :=
      ⟨_, (Nat.succ_pred_eq_of_pos hpos).symm⟩
    have hIkm : InitAddr B % 16 = 0 := by omega
    have hIlt : InitAddr B < B.address := by omega
    have hdump : hexDumpCells B =
        Cell.header (InitAddr B) :: (List.range' (InitAddr B) (B.address % 16)).map Cell.blank := by
      rw [hexDumpCells_eq B hov, h0, Nat.add_zero, hk, List.range'_succ, List.flatMap_cons]
      rw [cellsAt_header_blank B (InitAddr B) hIkm hIlt]
      rw [flatMap_eq_map _ _ Cell.blank ?hsing]
      case hsing =>
        intro x hx
        rw [List.mem_range'_1] at hx
        have ha1 : ¬ x % 16 = 0 := by omega
        have ha2 : ¬ x % 16 = 15 := by omega
        have ha3 : x < B.address := by omega
        exact cellsAt_blank_only B x ha1 ha2 ha3
      simp
    rw [hrepb, hdump, hbnd]
    simp
  · intro h0m
    have hdump0 : hexDumpCells B = [] := by
      rw [hexDumpCells_eq B hov, h0, Nat.add_zero, h0m]
      rfl
    have hbnd0 : boundaryNewline B = [] := by
      simp [boundaryNewline, EndAddr_eq B hov, LineWidth, h0, h0m]
    rw [hrepb, hdump0, hbnd0]
    rfl

/-- Witness for C10 at the size-zero block based at 0x1003. -/
theorem C10_zero_size_block_witness :
    (⟨0x1003, 0, false, []⟩ : Block).isZeroFill = false ∧
    (⟨0x1003, 0, false, []⟩ : Block).size = 0 ∧
    (0x1003 : Nat) < U64 ∧
    (((0x1003 : Nat) % LineWidth ≠ 0 →
      blockCells ⟨0x1003, 0, false, []⟩ =
        [Cell.blockAddr 0x1003, Cell.header (InitAddr ⟨0x1003, 0, false, []⟩)] ++
        (List.range' (InitAddr ⟨0x1003, 0, false, []⟩) (0x1003 % LineWidth)).map Cell.blank ++
        [Cell.newline, Cell.newline]) ∧
     ((0x1003 : Nat) % LineWidth = 0 →
      blockCells ⟨0x1003, 0, false, []⟩ = [Cell.blockAddr 0x1003, Cell.newline])) :=
  ⟨rfl, rfl, by decide, C10_zero_size_block ⟨0x1003, 0, false, []⟩ rfl rfl (by decide)⟩
